import Mathlib

/-!
Verification development for the stund daemon/client protocol core.

The definitions below are shallow embeddings of the Rust sources:
  * `src/src/daemon.rs`              — daemon session machine and child supervisor
  * `src/protocol/src/client.rs`     — client open-workflow state machine
  * `src/stund/src/protocol/client.rs` — older vendored copy of the client
Bytes are modelled as `Nat` (the relevant comparisons are against the
literal bytes 0x0A and 0x2E), byte buffers as `List Nat`, and each
`poll_*` function as a pure step function over the record of resources the
corresponding Rust state owns.
-/

namespace Stund

/-- Client → daemon message variants, from `ClientMessage` (src/stund protocol).
`openCmd` carries the `OpenParameters.host` field; Lean reserves `open`,
so the constructor is renamed. -/
inductive ClientMessage
  | openCmd (host : String)
  | userData (data : List Nat)
  | endOfUserData
  | goodbye
  | exitCmd
deriving DecidableEq

/-- Daemon → client message variants, from `ServerMessage`. -/
inductive ServerMessage
  | ok
  | sshData (data : List Nat)
  | tunnelAlreadyOpen
  | error (text : String)
deriving DecidableEq

/-- The terminator acceptor states, from `FinishCommunicationState` in
`src/protocol/src/client.rs` (identical in `src/stund/src/protocol/client.rs`). -/
inductive FinishCommunicationState
  | noLeads
  | sawFirstEnter
  | sawPeriod
  | sawSecondEnter
deriving DecidableEq

/-- Single-byte transition of the terminator acceptor, transcribed from
`FinishCommunicationState::transition`.  Every arm that does not `return`
falls through to `NoLeads` — including `SawFirstEnter` on a newline. -/
def FinishCommunicationState.transition : FinishCommunicationState → Nat → FinishCommunicationState
  | .noLeads, b => if b = 0x0A then .sawFirstEnter else .noLeads
  | .sawFirstEnter, b => if b = 0x2E then .sawPeriod else .noLeads
  | .sawPeriod, b => if b = 0x0A then .sawSecondEnter else .noLeads
  | .sawSecondEnter, _ => .sawSecondEnter

/-- Feeding a byte chunk through the acceptor, as the client does with
`for single_byte in &b { finished = finished.transition(*single_byte) }`. -/
def runAcceptor (s : FinishCommunicationState) : List Nat → FinishCommunicationState
  | [] => s
  | b :: rest => runAcceptor (s.transition b) rest

/-- `containsDotNL w` holds when `w` contains the two consecutive bytes
`0x2E` (period) then `0x0A` (newline) — the substring `".\n"`. -/
def containsDotNL : List Nat → Bool
  | [] => false
  | [_] => false
  | a :: b :: rest => (decide (a = 0x2E) && decide (b = 0x0A)) || containsDotNL (b :: rest)

theorem containsDotNL_cons (b : Nat) (w : List Nat) (h : containsDotNL w = true) :
    containsDotNL (b :: w) = true := by
  cases w with
  | nil => simp [containsDotNL] at h
  | cons c rest => simp [containsDotNL] at h ⊢; exact Or.inr h

theorem transition_eq_sawPeriod (s : FinishCommunicationState) (b : Nat) :
    s.transition b = .sawPeriod ↔ s = .sawFirstEnter ∧ b = 0x2E := by
  cases s <;> simp [FinishCommunicationState.transition] <;> split <;> simp_all

theorem transition_eq_sawSecondEnter (s : FinishCommunicationState) (b : Nat) :
    s.transition b = .sawSecondEnter ↔ s = .sawSecondEnter ∨ (s = .sawPeriod ∧ b = 0x0A) := by
  cases s <;> simp [FinishCommunicationState.transition] <;> split <;> simp_all

/-- If a run of the acceptor ends in the accepting state, then either the
input contained `".\n"`, or the start state was already inside the tail of
the sentinel (`SawPeriod` followed immediately by a newline) or accepting. -/
theorem runAcceptor_accept_contains (w : List Nat) : ∀ s : FinishCommunicationState,
    runAcceptor s w = .sawSecondEnter →
    containsDotNL w = true ∨ (s = .sawPeriod ∧ w.head? = some 0x0A) ∨ s = .sawSecondEnter := by
  induction w with
  | nil =>
    intro s h
    exact Or.inr (Or.inr h)
  | cons b rest ih =>
    intro s h
    rcases ih (s.transition b) h with hc | ⟨hsp, hhd⟩ | hacc
    · exact Or.inl (containsDotNL_cons b rest hc)
    · rcases (transition_eq_sawPeriod s b).mp hsp with ⟨-, hb⟩
      subst hb
      cases rest with
      | nil => simp at hhd
      | cons c rest' =>
        simp at hhd
        subst hhd
        exact Or.inl (by simp [containsDotNL])
    · rcases (transition_eq_sawSecondEnter s b).mp hacc with hs | ⟨hs, hb⟩
      · exact Or.inr (Or.inr hs)
      · exact Or.inr (Or.inl ⟨hs, by simp [hb]⟩)

/-- Claim C2 (corrected): starting in `SawFirstEnter`, the acceptor reaches
`SawSecondEnter` only at the end of a prefix that contains the substring
`".\n"` — hence on no prefix shorter than the shortest prefix containing
`".\n"`, and never when the stream contains no `".\n"` at all — and when the
stream begins with `".\n"` it accepts exactly at the end of that two-byte
prefix.  (The original claim, acceptance exactly at the end of the shortest
prefix containing `".\n"`, is refuted by `C2_counterexample`.) -/
theorem C2_acceptor_soundness :
    (∀ (B : List Nat) (n : Nat),
        runAcceptor .sawFirstEnter (B.take n) = .sawSecondEnter →
        containsDotNL (B.take n) = true) ∧
    (∀ rest : List Nat,
        runAcceptor .sawFirstEnter (List.take 2 (0x2E :: 0x0A :: rest)) = .sawSecondEnter) := by
  constructor
  · intro B n h
    rcases runAcceptor_accept_contains (B.take n) .sawFirstEnter h with hc | ⟨hsp, -⟩ | hacc
    · exact hc
    · exact absurd hsp (by simp)
    · exact absurd hacc (by simp)
  · intro rest
    simp [List.take, runAcceptor, FinishCommunicationState.transition]

theorem C2_witness :
    containsDotNL (List.take 2 (0x2E :: 0x0A :: ([] : List Nat))) = true ∧
    runAcceptor .sawFirstEnter (List.take 2 (0x2E :: 0x0A :: ([] : List Nat))) = .sawSecondEnter :=
  ⟨C2_acceptor_soundness.1 [0x2E, 0x0A] 2 (by decide), C2_acceptor_soundness.2 []⟩

/-- Claim C2, counterexample to the claim as stated: the stream
`B = [0x61, 0x2E, 0x0A]` (`"a.\n"`) is its own shortest prefix containing
`".\n"` (no proper prefix contains it), yet after consuming all of `B` from
`SawFirstEnter` the acceptor sits in `SawFirstEnter`, not `SawSecondEnter`:
the leading `0x61` resets the seeded state to `NoLeads`, and
`NoLeads --0x2E--> NoLeads`. -/
theorem C2_counterexample :
    runAcceptor .sawFirstEnter [0x61, 0x2E, 0x0A] = .sawFirstEnter ∧
    runAcceptor .sawFirstEnter [0x61, 0x2E, 0x0A] ≠ .sawSecondEnter ∧
    containsDotNL [0x61, 0x2E, 0x0A] = true ∧
    containsDotNL [0x61, 0x2E] = false ∧
    containsDotNL [0x61] = false ∧
    containsDotNL ([] : List Nat) = false := by
  decide

/-- Claim C3 (corrected): `SawSecondEnter` is absorbing, and from every
non-accepting state every byte outside the expected continuation of the
sentinel resets the acceptor to `NoLeads` — even when that byte is a
newline.  (Only in `NoLeads`, where newline is the expected continuation,
does a newline advance the acceptor; the original claim's rule that an
out-of-place newline moves to `SawFirstEnter` is refuted by
`C3_counterexample`.) -/
theorem C3_transition_characterization :
    (∀ b : Nat, FinishCommunicationState.sawSecondEnter.transition b = .sawSecondEnter) ∧
    (∀ b : Nat, b ≠ 0x0A → FinishCommunicationState.noLeads.transition b = .noLeads) ∧
    (∀ b : Nat, b ≠ 0x2E → FinishCommunicationState.sawFirstEnter.transition b = .noLeads) ∧
    (∀ b : Nat, b ≠ 0x0A → FinishCommunicationState.sawPeriod.transition b = .noLeads) := by
  refine ⟨fun b => rfl, fun b hb => ?_, fun b hb => ?_, fun b hb => ?_⟩ <;>
    simp [FinishCommunicationState.transition, hb]

theorem C3_witness :
    FinishCommunicationState.sawSecondEnter.transition 0x41 = .sawSecondEnter ∧
    FinishCommunicationState.noLeads.transition 0x41 = .noLeads ∧
    FinishCommunicationState.sawFirstEnter.transition 0x0A = .noLeads ∧
    FinishCommunicationState.sawPeriod.transition 0x2E = .noLeads :=
  ⟨C3_transition_characterization.1 0x41,
   C3_transition_characterization.2.1 0x41 (by decide),
   C3_transition_characterization.2.2.1 0x0A (by decide),
   C3_transition_characterization.2.2.2 0x2E (by decide)⟩

/-- Claim C3, counterexample to the claim as stated: in `SawFirstEnter` the
expected continuation is `0x2E`, so a newline (`0x0A`) is "outside the
expected continuation"; the claim says it should move the acceptor to
`SawFirstEnter`, but the source's fall-through sends it to `NoLeads`. -/
theorem C3_counterexample :
    FinishCommunicationState.sawFirstEnter.transition 0x0A = .noLeads ∧
    FinishCommunicationState.sawFirstEnter.transition 0x0A ≠ .sawFirstEnter := by
  decide

/-!
Daemon session: the `CommunicatingForOpen` state of `poll_communicating_for_open`
(src/src/daemon.rs).  The state owns the send buffer `buf`, the sticky
`saw_end` flag, and the outgoing sink `cl_tx`, which is either idle
(`Either::A(ser)`) or flushing a previously started send (`Either::B(send)`).
One call of the poll function is modelled as a step on that record; the
sources of nondeterminism — what `cl_rx.poll()`, `ssh_rx.poll()` and the
pending send's `poll()` return — are the step's input.
-/

/-- The outgoing sink: `Either::A(ser)` (idle) or `Either::B(send)`
(a frame has been handed to the codec and is still being flushed). -/
inductive TxState
  | idle
  | sending (frame : ServerMessage)
deriving DecidableEq

structure CommState where
  buf : List Nat
  sawEnd : Bool
  clTx : TxState
deriving DecidableEq

/-- Result of `state.cl_rx.poll()` on one wake. -/
inductive ClientEvent
  | msg (m : ClientMessage)
  | eofStream
  | notReady
deriving DecidableEq

/-- Result of `state.ssh_rx.poll()` on one wake. -/
inductive PtyEvent
  | data (b : List Nat)
  | eofStream
  | ioError
  | notReady
deriving DecidableEq

structure PollInput where
  client : ClientEvent
  pty : PtyEvent
  /-- whether a pending `cl_tx` send completes when polled on this wake -/
  sendDone : Bool
deriving DecidableEq

/-- Observable wire activity of one step: a frame handed to the codec
(`ser.send(frame)` started), or a previously handed frame finishing its
flush (the pending `Send` future completing). -/
inductive WireEvent
  | handed (frame : ServerMessage)
  | flushed
deriving DecidableEq

/-- Outcome of one `poll_communicating_for_open` call.  `ptyWrites` records
every byte the step writes into the PTY master; in this source the write is
commented out (only `println!("WRITE TO SSH")` runs), so every constructor
is built with `ptyWrites = []`. -/
inductive CommStep
  | next (s : CommState) (evs : List WireEvent) (ptyWrites : List Nat)
  | finishOpen (evs : List WireEvent) (ptyWrites : List Nat)
  | abortOpen (evs : List WireEvent) (ptyWrites : List Nat)
  | fatal
deriving DecidableEq

/-- Final phase of the poll: `if state.saw_end { if let Either::A(ser) = cl_tx
{ send Ok; transition to FinalizingOpen } }`.  Note the source does not
re-check that `buf` is empty here. -/
def commFinishCheck (s : CommState) (evs : List WireEvent) : CommStep :=
  if s.sawEnd = true ∧ s.clTx = TxState.idle then
    .finishOpen (evs ++ [WireEvent.handed ServerMessage.ok]) []
  else
    .next s evs []

/-- Third phase: advance the outgoing sink.  Idle with a non-empty buffer
starts one `SshData(buf)` send and clears the buffer; a pending send either
completes (becoming idle) or leaves the whole poll `NotReady`. -/
def commTxPhase (s : CommState) (i : PollInput) : CommStep :=
  match s.clTx with
  | .idle =>
      if s.buf = [] then
        commFinishCheck s []
      else
        commFinishCheck { s with buf := [], clTx := .sending (.sshData s.buf) }
          [WireEvent.handed (ServerMessage.sshData s.buf)]
  | .sending _ =>
      if i.sendDone = true then
        commFinishCheck { s with clTx := .idle } [WireEvent.flushed]
      else
        .next s [] []

/-- Second phase: new text from SSH.  An error on the PTY stream aborts the
session (`abort_client`: if the sink is idle the `Error` frame is handed to
the codec at once, otherwise the message is queued for the `Aborting`
state); data is appended to the send buffer; end of stream is ignored. -/
def commPtyPhase (s : CommState) (i : PollInput) : CommStep :=
  match i.pty with
  | .ioError =>
      match s.clTx with
      | .idle =>
          .abortOpen
            [WireEvent.handed
              (ServerMessage.error "something went wrong communicating with the SSH process")] []
      | .sending _ => .abortOpen [] []
  | .data b => commTxPhase { s with buf := s.buf ++ b } i
  | .eofStream => commTxPhase s i
  | .notReady => commTxPhase s i

/-- One call of `poll_communicating_for_open`.  First phase: new text from
the user.  `UserData` after `saw_end` is fatal; `UserData` otherwise only
prints `"WRITE TO SSH"` — the write into the PTY master is commented out, so
the bytes are discarded; `EndOfUserData` sets the sticky flag; `Open`,
`Goodbye` and `Exit` are fatal; end of stream is ignored. -/
def pollCommunicatingForOpen (s : CommState) (i : PollInput) : CommStep :=
  match i.client with
  | .msg (.userData _) =>
      if s.sawEnd = true then .fatal
      else commPtyPhase s i
  | .msg .endOfUserData => commPtyPhase { s with sawEnd := true } i
  | .msg (.openCmd _) => .fatal
  | .msg .goodbye => .fatal
  | .msg .exitCmd => .fatal
  | .eofStream => commPtyPhase s i
  | .notReady => commPtyPhase s i

/-- The `CommunicatingForOpen` record as `handle_client_open` constructs it
after a successful open: empty buffer, `saw_end: false`, and the sink
already flushing the first `Ok` acknowledgment (`cl_tx: Either::B(tx.send(Ok))`). -/
def initCommunicatingForOpen : CommState :=
  { buf := [], sawEnd := false, clTx := .sending .ok }

/-- How the session behaves while it stays in `CommunicatingForOpen`:
consume one poll input per step, accumulating wire events, until the state
is left (or the supplied inputs run out). -/
inductive CommResult
  | finished
  | aborted
  | fatalErr
  | pendingComm (s : CommState)
deriving DecidableEq

def commRun (s : CommState) : List PollInput → List WireEvent × CommResult
  | [] => ([], .pendingComm s)
  | i :: rest =>
      match pollCommunicatingForOpen s i with
      | .fatal => ([], .fatalErr)
      | .abortOpen evs _ => (evs, .aborted)
      | .finishOpen evs _ => (evs, .finished)
      | .next s2 evs _ =>
          let r := commRun s2 rest
          (evs ++ r.1, r.2)

def okCount (evs : List WireEvent) : Nat :=
  evs.countP fun e => match e with | .handed .ok => true | _ => false

def handedCount (evs : List WireEvent) : Nat :=
  evs.countP fun e => match e with | .handed _ => true | _ => false

def flushedCount (evs : List WireEvent) : Nat :=
  evs.countP fun e => match e with | .flushed => true | _ => false

def pendingCount : TxState → Nat
  | .idle => 0
  | .sending _ => 1

def ptyWritesOf : CommStep → List Nat
  | .next _ _ w => w
  | .finishOpen _ w => w
  | .abortOpen _ w => w
  | .fatal => []

/-- Bookkeeping invariant of a single poll step, relative to the number `P`
of frames in flight on entry (`0` or `1`): frames handed to the codec plus
`P` balance flushed frames plus frames still in flight, no `Ok` is handed
except as the last event of the step that leaves for `FinalizingOpen`, and
when that happens everything handed earlier has been flushed. -/
def StepSpec (P : Nat) : CommStep → Prop
  | .next s2 evs _ => pendingCount s2.clTx + flushedCount evs = P + handedCount evs ∧ okCount evs = 0
  | .finishOpen evs _ =>
      ∃ E, evs = E ++ [WireEvent.handed ServerMessage.ok] ∧ okCount E = 0 ∧
        flushedCount E = P + handedCount E
  | .abortOpen evs _ => okCount evs = 0
  | .fatal => True

theorem commFinishCheck_spec (P : Nat) (s : CommState) (evs : List WireEvent)
    (hok : okCount evs = 0)
    (hbal : pendingCount s.clTx + flushedCount evs = P + handedCount evs) :
    StepSpec P (commFinishCheck s evs) := by
  unfold commFinishCheck
  split
  · rename_i hcond
    rw [hcond.2] at hbal
    simp [pendingCount] at hbal
    exact ⟨evs, rfl, hok, hbal⟩
  · exact ⟨hbal, hok⟩

theorem commTxPhase_spec (s : CommState) (i : PollInput) :
    StepSpec (pendingCount s.clTx) (commTxPhase s i) := by
  obtain ⟨buf, se, tx⟩ := s
  cases tx with
  | idle =>
    by_cases hb : buf = []
    · simp only [commTxPhase, hb, if_pos rfl]
      exact commFinishCheck_spec _ _ _ rfl (by simp [flushedCount, handedCount, pendingCount])
    · simp only [commTxPhase, if_neg hb]
      exact commFinishCheck_spec _ _ _ rfl rfl
  | sending f =>
    by_cases hd : i.sendDone = true
    · simp only [commTxPhase, hd, if_pos rfl]
      exact commFinishCheck_spec _ _ _ rfl rfl
    · simp only [commTxPhase, if_neg hd]
      exact ⟨rfl, rfl⟩

theorem commPtyPhase_spec (s : CommState) (i : PollInput) :
    StepSpec (pendingCount s.clTx) (commPtyPhase s i) := by
  cases hp : i.pty with
  | ioError =>
    cases htx : s.clTx with
    | idle => simp only [commPtyPhase, hp, htx]; exact rfl
    | sending f => simp only [commPtyPhase, hp, htx]; exact rfl
  | data b => simpa only [commPtyPhase, hp] using commTxPhase_spec { s with buf := s.buf ++ b } i
  | eofStream => simpa only [commPtyPhase, hp] using commTxPhase_spec s i
  | notReady => simpa only [commPtyPhase, hp] using commTxPhase_spec s i

theorem pollCommunicatingForOpen_spec (s : CommState) (i : PollInput) :
    StepSpec (pendingCount s.clTx) (pollCommunicatingForOpen s i) := by
  cases hc : i.client with
  | msg m =>
    cases m with
    | userData d =>
      by_cases hse : s.sawEnd = true
      · simp [pollCommunicatingForOpen, hc, hse, StepSpec]
      · simpa only [pollCommunicatingForOpen, hc, if_neg hse] using commPtyPhase_spec s i
    | endOfUserData =>
      simpa only [pollCommunicatingForOpen, hc] using
        commPtyPhase_spec { s with sawEnd := true } i
    | openCmd h => simp [pollCommunicatingForOpen, hc, StepSpec]
    | goodbye => simp [pollCommunicatingForOpen, hc, StepSpec]
    | exitCmd => simp [pollCommunicatingForOpen, hc, StepSpec]
  | eofStream => simpa only [pollCommunicatingForOpen, hc] using commPtyPhase_spec s i
  | notReady => simpa only [pollCommunicatingForOpen, hc] using commPtyPhase_spec s i

/-- Run-level bookkeeping: over the whole stay inside `CommunicatingForOpen`,
handed/flushed counts balance, and the single `Ok` appears exactly when the
run leaves for `FinalizingOpen`, as its last wire event. -/
def RunSpec (s : CommState) : List WireEvent × CommResult → Prop
  | (evs, .pendingComm s2) =>
      flushedCount evs + pendingCount s2.clTx = pendingCount s.clTx + handedCount evs ∧
        okCount evs = 0
  | (evs, .finished) =>
      ∃ E, evs = E ++ [WireEvent.handed ServerMessage.ok] ∧ okCount E = 0 ∧
        flushedCount E = pendingCount s.clTx + handedCount E
  | (evs, .aborted) => okCount evs = 0
  | (evs, .fatalErr) => okCount evs = 0

theorem commRun_spec (inputs : List PollInput) : ∀ s : CommState,
    RunSpec s (commRun s inputs) := by
  induction inputs with
  | nil =>
    intro s
    exact ⟨by simp [flushedCount, handedCount], rfl⟩
  | cons i rest ih =>
    intro s
    have hstep := pollCommunicatingForOpen_spec s i
    simp only [commRun]
    cases h : pollCommunicatingForOpen s i with
    | fatal => exact rfl
    | abortOpen evs w => rw [h] at hstep; exact hstep
    | finishOpen evs w => rw [h] at hstep; exact hstep
    | next s2 evs w =>
      rw [h] at hstep
      obtain ⟨hbal, hok⟩ := hstep
      have hrest := ih s2
      rcases hr : commRun s2 rest with ⟨evs2, r⟩
      rw [hr] at hrest
      show RunSpec s (evs ++ (commRun s2 rest).1, (commRun s2 rest).2)
      rw [hr]
      cases r with
      | pendingComm s3 =>
        obtain ⟨hbal2, hok2⟩ := hrest
        refine ⟨?_, ?_⟩
        · simp only [flushedCount, handedCount, List.countP_append] at hbal hbal2 ⊢
          omega
        · simp only [okCount, List.countP_append] at hok hok2 ⊢
          omega
      | finished =>
        obtain ⟨E, hE, hEok, hEbal⟩ := hrest
        refine ⟨evs ++ E, by rw [hE, List.append_assoc], ?_, ?_⟩
        · simp only [okCount, List.countP_append] at hok hEok ⊢
          omega
        · simp only [flushedCount, handedCount, List.countP_append] at hbal hEbal ⊢
          omega
      | aborted =>
        have hok2 : okCount evs2 = 0 := hrest
        show okCount (evs ++ evs2) = 0
        simp only [okCount, List.countP_append] at hok hok2 ⊢
        omega
      | fatalErr =>
        have hok2 : okCount evs2 = 0 := hrest
        show okCount (evs ++ evs2) = 0
        simp only [okCount, List.countP_append] at hok hok2 ⊢
        omega

theorem commFinishCheck_finishOpen (s : CommState) (evs evs2 : List WireEvent) (w : List Nat)
    (h : commFinishCheck s evs = .finishOpen evs2 w) : s.sawEnd = true := by
  unfold commFinishCheck at h
  split at h
  · rename_i hcond; exact hcond.1
  · exact absurd h (by simp)

theorem commTxPhase_finishOpen (s : CommState) (i : PollInput) (evs : List WireEvent)
    (w : List Nat) (h : commTxPhase s i = .finishOpen evs w) : s.sawEnd = true := by
  obtain ⟨buf, se, tx⟩ := s
  cases tx with
  | idle =>
    simp only [commTxPhase] at h
    by_cases hb : buf = []
    · rw [if_pos hb] at h
      have h2 := commFinishCheck_finishOpen _ _ _ _ h
      exact h2
    · rw [if_neg hb] at h
      have h2 := commFinishCheck_finishOpen _ _ _ _ h
      exact h2
  | sending f =>
    simp only [commTxPhase] at h
    by_cases hd : i.sendDone = true
    · rw [if_pos hd] at h
      have h2 := commFinishCheck_finishOpen _ _ _ _ h
      exact h2
    · rw [if_neg hd] at h
      exact absurd h (by simp)

theorem commPtyPhase_finishOpen (s : CommState) (i : PollInput) (evs : List WireEvent)
    (w : List Nat) (h : commPtyPhase s i = .finishOpen evs w) : s.sawEnd = true := by
  unfold commPtyPhase at h
  cases hp : i.pty <;> rw [hp] at h
  case ioError =>
    cases htx : s.clTx <;> rw [htx] at h <;> exact absurd h (by simp)
  case data b =>
    have h2 : commTxPhase { s with buf := s.buf ++ b } i = CommStep.finishOpen evs w := h
    have h3 := commTxPhase_finishOpen _ _ _ _ h2
    exact h3
  case eofStream =>
    have h2 : commTxPhase s i = CommStep.finishOpen evs w := h
    exact commTxPhase_finishOpen _ _ _ _ h2
  case notReady =>
    have h2 : commTxPhase s i = CommStep.finishOpen evs w := h
    exact commTxPhase_finishOpen _ _ _ _ h2

theorem pollCommunicatingForOpen_finishOpen (s : CommState) (i : PollInput)
    (evs : List WireEvent) (w : List Nat)
    (h : pollCommunicatingForOpen s i = .finishOpen evs w) :
    s.sawEnd = true ∨ i.client = ClientEvent.msg ClientMessage.endOfUserData := by
  unfold pollCommunicatingForOpen at h
  cases hc : i.client <;> rw [hc] at h
  case msg m =>
    cases m
    case userData d =>
      have h2 : (if s.sawEnd = true then CommStep.fatal else commPtyPhase s i) =
          CommStep.finishOpen evs w := h
      by_cases hse : s.sawEnd = true
      · exact Or.inl hse
      · rw [if_neg hse] at h2
        exact Or.inl (commPtyPhase_finishOpen _ _ _ _ h2)
    case endOfUserData => exact Or.inr rfl
    case openCmd host => exact absurd h (by simp)
    case goodbye => exact absurd h (by simp)
    case exitCmd => exact absurd h (by simp)
  case eofStream =>
    have h2 : commPtyPhase s i = CommStep.finishOpen evs w := h
    exact Or.inl (commPtyPhase_finishOpen _ _ _ _ h2)
  case notReady =>
    have h2 : commPtyPhase s i = CommStep.finishOpen evs w := h
    exact Or.inl (commPtyPhase_finishOpen _ _ _ _ h2)

/-- Claim C4 (confirmed): per `Open` request, the daemon hands the codec at
most one `Ok` frame while in `CommunicatingForOpen`; when the state is left
via `FinalizingOpen` that `Ok` is the last wire event of the whole stay, it
is started only once `saw_end` holds and the outgoing sink is idle, and at
that moment every frame handed to the codec earlier — the initial `Ok`
acknowledgment pending on entry (the `1 +` below) and every `SshData`
handed during the stay — has completed its flush. -/
theorem C4_at_most_one_ok (inputs : List PollInput) :
    okCount (commRun initCommunicatingForOpen inputs).1 ≤ 1 ∧
    ((commRun initCommunicatingForOpen inputs).2 = CommResult.finished →
      ∃ E, (commRun initCommunicatingForOpen inputs).1 = E ++ [WireEvent.handed ServerMessage.ok] ∧
        okCount E = 0 ∧ flushedCount E = 1 + handedCount E) ∧
    (∀ (s : CommState) (i : PollInput) (evs : List WireEvent) (w : List Nat),
      pollCommunicatingForOpen s i = CommStep.finishOpen evs w →
      s.sawEnd = true ∨ i.client = ClientEvent.msg ClientMessage.endOfUserData) := by
  have hrun := commRun_spec inputs initCommunicatingForOpen
  rcases hr : commRun initCommunicatingForOpen inputs with ⟨evs, r⟩
  rw [hr] at hrun
  refine ⟨?_, ?_, ?_⟩
  · cases r with
    | pendingComm s2 =>
      have h : okCount evs = 0 := hrun.2
      simp [h]
    | finished =>
      obtain ⟨E, hE, hEok, -⟩ := hrun
      subst hE
      have h1 : okCount (E ++ [WireEvent.handed ServerMessage.ok]) =
          okCount E + okCount [WireEvent.handed ServerMessage.ok] := by
        simp only [okCount, List.countP_append]
      rw [h1, hEok]
      decide
    | aborted => have h : okCount evs = 0 := hrun; simp [h]
    | fatalErr => have h : okCount evs = 0 := hrun; simp [h]
  · intro hfin
    have hr2 : r = CommResult.finished := hfin
    subst hr2
    obtain ⟨E, hE, hEok, hEbal⟩ := hrun
    exact ⟨E, hE, hEok, hEbal⟩
  · intro s i evs2 w h
    exact pollCommunicatingForOpen_finishOpen s i evs2 w h

theorem C4_witness :
    (∃ E, (commRun initCommunicatingForOpen
        [⟨ClientEvent.msg ClientMessage.endOfUserData, PtyEvent.notReady, true⟩]).1 =
        E ++ [WireEvent.handed ServerMessage.ok] ∧
      okCount E = 0 ∧ flushedCount E = 1 + handedCount E) ∧
    ((initCommunicatingForOpen : CommState).sawEnd = true ∨
      ClientEvent.msg ClientMessage.endOfUserData = ClientEvent.msg ClientMessage.endOfUserData) :=
  ⟨(C4_at_most_one_ok [⟨ClientEvent.msg ClientMessage.endOfUserData, PtyEvent.notReady, true⟩]).2.1
      (by decide),
   (C4_at_most_one_ok []).2.2 initCommunicatingForOpen
      ⟨ClientEvent.msg ClientMessage.endOfUserData, PtyEvent.notReady, true⟩
      [WireEvent.flushed, WireEvent.handed ServerMessage.ok] [] (by decide)⟩

/-- Claim C1 (code bug): during `CommunicatingForOpen` the bytes of a
`UserData` frame are never written into the PTY master.  The source's
`UserData` arm only executes `println!("WRITE TO SSH")` — the
`ptymaster.write_all(&data)` call is commented out — so a `UserData` frame
received before `EndOfUserData` leaves the state unchanged and writes
nothing: the first conjunct evaluates the step on `UserData "pw\n"` in a
quiescent state, and the second shows no step of this state ever writes a
byte to the PTY. -/
theorem C1_userdata_not_written_to_pty :
    pollCommunicatingForOpen { buf := [], sawEnd := false, clTx := TxState.idle }
        ⟨ClientEvent.msg (ClientMessage.userData [0x70, 0x77, 0x0A]), PtyEvent.notReady, false⟩ =
      CommStep.next { buf := [], sawEnd := false, clTx := TxState.idle } [] [] ∧
    (∀ (s : CommState) (i : PollInput), ptyWritesOf (pollCommunicatingForOpen s i) = []) := by
  refine ⟨by decide, ?_⟩
  intro s i
  have hfc : ∀ (s2 : CommState) (evs : List WireEvent),
      ptyWritesOf (commFinishCheck s2 evs) = [] := by
    intro s2 evs
    unfold commFinishCheck
    split <;> rfl
  have htx : ∀ (s2 : CommState), ptyWritesOf (commTxPhase s2 i) = [] := by
    intro s2
    obtain ⟨buf, se, tx⟩ := s2
    cases tx with
    | idle =>
      simp only [commTxPhase]
      by_cases hb : buf = []
      · rw [if_pos hb]; exact hfc _ _
      · rw [if_neg hb]; exact hfc _ _
    | sending f =>
      simp only [commTxPhase]
      by_cases hd : i.sendDone = true
      · rw [if_pos hd]; exact hfc _ _
      · rw [if_neg hd]; rfl
  have hpty : ∀ (s2 : CommState), ptyWritesOf (commPtyPhase s2 i) = [] := by
    intro s2
    unfold commPtyPhase
    cases hp : i.pty
    case ioError => cases s2.clTx <;> rfl
    case data b => exact htx _
    case eofStream => exact htx _
    case notReady => exact htx _
  unfold pollCommunicatingForOpen
  cases hc : i.client
  case msg m =>
    cases m
    case userData d =>
      by_cases hse : s.sawEnd = true
      · rw [if_pos hse]; rfl
      · rw [if_neg hse]; exact hpty _
    case endOfUserData => exact hpty _
    case openCmd host => rfl
    case goodbye => rfl
    case exitCmd => rfl
  case eofStream => exact hpty _
  case notReady => exact hpty _

theorem commRun_cons (s : CommState) (i : PollInput) (rest : List PollInput) :
    commRun s (i :: rest) =
      match pollCommunicatingForOpen s i with
      | .fatal => ([], CommResult.fatalErr)
      | .abortOpen evs _ => (evs, CommResult.aborted)
      | .finishOpen evs _ => (evs, CommResult.finished)
      | .next s2 evs _ => (evs ++ (commRun s2 rest).1, (commRun s2 rest).2) := rfl

theorem commRun_append (pre : List PollInput) : ∀ (s s2 : CommState) (rest : List PollInput),
    (commRun s pre).2 = CommResult.pendingComm s2 →
    commRun s (pre ++ rest) = ((commRun s pre).1 ++ (commRun s2 rest).1, (commRun s2 rest).2) := by
  induction pre with
  | nil =>
    intro s s2 rest h
    have hs : s = s2 := by
      have h2 : CommResult.pendingComm s = CommResult.pendingComm s2 := h
      exact (CommResult.pendingComm.injEq s s2).mp h2
    subst hs
    simp [commRun]
  | cons i pre2 ih =>
    intro s s2 rest h
    cases hstep : pollCommunicatingForOpen s i with
    | fatal =>
      rw [commRun_cons, hstep] at h
      exact absurd h (by simp)
    | abortOpen evs w =>
      rw [commRun_cons, hstep] at h
      exact absurd h (by simp)
    | finishOpen evs w =>
      rw [commRun_cons, hstep] at h
      exact absurd h (by simp)
    | next s3 evs w =>
      rw [commRun_cons, hstep] at h
      have h2 : (commRun s3 pre2).2 = CommResult.pendingComm s2 := h
      rw [List.cons_append, commRun_cons s i (pre2 ++ rest), commRun_cons s i pre2, hstep]
      show (evs ++ (commRun s3 (pre2 ++ rest)).1, (commRun s3 (pre2 ++ rest)).2) =
        ((evs ++ (commRun s3 pre2).1) ++ (commRun s2 rest).1, (commRun s2 rest).2)
      rw [ih s3 s2 rest h2]
      simp [List.append_assoc]

/-- The client messages that are fatal inside `CommunicatingForOpen`: any
variant other than `UserData`/`EndOfUserData`, or `UserData` once the sticky
`saw_end` flag of the current state holds. -/
def badClientInput (s : CommState) (i : PollInput) : Prop :=
  (∃ host, i.client = ClientEvent.msg (ClientMessage.openCmd host)) ∨
  i.client = ClientEvent.msg ClientMessage.goodbye ∨
  i.client = ClientEvent.msg ClientMessage.exitCmd ∨
  (∃ d, i.client = ClientEvent.msg (ClientMessage.userData d) ∧ s.sawEnd = true)

theorem pollCommunicatingForOpen_bad_fatal (s : CommState) (i : PollInput)
    (hbad : badClientInput s i) : pollCommunicatingForOpen s i = CommStep.fatal := by
  unfold pollCommunicatingForOpen
  rcases hbad with ⟨host, hc⟩ | hc | hc | ⟨d, hc, hse⟩ <;> (rw [hc]; try simp_all)

/-- Claim C7 (confirmed): if, at any point of a `CommunicatingForOpen` stay
that is still in progress, the daemon reads a client message that is
`Open`/`Goodbye`/`Exit`, or `UserData` after `EndOfUserData` has been seen,
then the session ends with a fatal error at that step and no `Ok` frame is
ever handed to the codec during the whole stay. -/
theorem C7_bad_message_fatal_no_ok (pre : List PollInput) (i : PollInput)
    (post : List PollInput) (s : CommState)
    (hpre : (commRun initCommunicatingForOpen pre).2 = CommResult.pendingComm s)
    (hbad : badClientInput s i) :
    (commRun initCommunicatingForOpen (pre ++ i :: post)).2 = CommResult.fatalErr ∧
    okCount (commRun initCommunicatingForOpen (pre ++ i :: post)).1 = 0 := by
  rw [commRun_append pre initCommunicatingForOpen s (i :: post) hpre]
  have hstep : commRun s (i :: post) = ([], CommResult.fatalErr) := by
    rw [commRun_cons, pollCommunicatingForOpen_bad_fatal s i hbad]
  rw [hstep]
  have hrun := commRun_spec pre initCommunicatingForOpen
  rcases hr : commRun initCommunicatingForOpen pre with ⟨evs, r⟩
  rw [hr] at hrun hpre
  have hrr : r = CommResult.pendingComm s := hpre
  subst hrr
  have hok : okCount evs = 0 := hrun.2
  refine ⟨rfl, ?_⟩
  show okCount (evs ++ []) = 0
  rw [List.append_nil]
  exact hok

theorem C7_witness :
    (commRun initCommunicatingForOpen
        [⟨ClientEvent.msg ClientMessage.goodbye, PtyEvent.notReady, false⟩]).2 =
      CommResult.fatalErr ∧
    okCount (commRun initCommunicatingForOpen
        [⟨ClientEvent.msg ClientMessage.goodbye, PtyEvent.notReady, false⟩]).1 = 0 :=
  C7_bad_message_fatal_no_ok [] ⟨ClientEvent.msg ClientMessage.goodbye, PtyEvent.notReady, false⟩
    [] initCommunicatingForOpen (by decide) (Or.inr (Or.inl rfl))

/-!
Child supervisor: `ChildMonitor` in src/src/daemon.rs
(`poll_awaiting_child_event` and `poll_notifying_child_died`).  The
supervisor reacts to exactly one of two events — the child exiting, or a
kill request on the kill channel — and performs a fixed, ordered sequence
of actions; the `NotifyingChildDied` state then completes the death-channel
send.  `monitorActions` lists those actions in program order.
-/

/-- The externally visible actions of one supervisor run. -/
inductive SupervisorAction
  | killChild
  | removeRegistryEntry
  | closeKillReceiver
  | notifyDeath (status : Option Nat)
deriving DecidableEq

/-- The event that wakes the supervisor: the child exited with a status
(exit statuses abstracted as `Nat`), or a kill was requested.  The child
poll is checked first, so a simultaneous kill request is ignored once the
child has exited. -/
inductive ChildEvent
  | childExited (status : Nat)
  | killRequested
deriving DecidableEq

/-- Transcription of the two branches of `poll_awaiting_child_event`
followed by `poll_notifying_child_died`:
child exit → remove the registry entry, close the kill receiver, send
`Some(status)` on the death channel; kill request → `child.kill()` with the
result ignored, remove the registry entry, close the kill receiver, send
`None`. -/
def monitorActions : ChildEvent → List SupervisorAction
  | .childExited status =>
      [.removeRegistryEntry, .closeKillReceiver, .notifyDeath (some status)]
  | .killRequested =>
      [.killChild, .removeRegistryEntry, .closeKillReceiver, .notifyDeath none]

/-- Claim C6 (confirmed): on child exit the supervisor removes the registry
entry and then sends `Some(status)`; on a kill request it signals the child
(best effort), removes the registry entry, closes the kill receiver, and
then sends `None`; and in every supervisor run the registry removal occurs
strictly before the death notification, so no consumer can observe the
notification while the entry is still present. -/
theorem C6_remove_before_notify :
    (∀ status : Nat, ∃ i j, i < j ∧
      (monitorActions (ChildEvent.childExited status)).get? i =
        some SupervisorAction.removeRegistryEntry ∧
      (monitorActions (ChildEvent.childExited status)).get? j =
        some (SupervisorAction.notifyDeath (some status))) ∧
    ((monitorActions ChildEvent.killRequested).get? 0 = some SupervisorAction.killChild ∧
      (monitorActions ChildEvent.killRequested).get? 1 = some SupervisorAction.removeRegistryEntry ∧
      (monitorActions ChildEvent.killRequested).get? 2 = some SupervisorAction.closeKillReceiver ∧
      (monitorActions ChildEvent.killRequested).get? 3 = some (SupervisorAction.notifyDeath none)) ∧
    (∀ (ev : ChildEvent) (i j : Nat) (d : Option Nat),
      (monitorActions ev).get? i = some SupervisorAction.removeRegistryEntry →
      (monitorActions ev).get? j = some (SupervisorAction.notifyDeath d) →
      i < j) := by
  refine ⟨fun status => ⟨0, 2, by decide, rfl, rfl⟩, ⟨rfl, rfl, rfl, rfl⟩, ?_⟩
  intro ev i j d h1 h2
  cases ev with
  | childExited status =>
    match i, h1 with
    | 0, _ =>
      match j, h2 with
      | 2, _ => decide
      | 0, h2 => exact absurd h2 (by simp [monitorActions])
      | 1, h2 => exact absurd h2 (by simp [monitorActions])
      | n + 3, h2 => exact absurd h2 (by simp [monitorActions])
    | 1, h1 => exact absurd h1 (by simp [monitorActions])
    | 2, h1 => exact absurd h1 (by simp [monitorActions])
    | n + 3, h1 => exact absurd h1 (by simp [monitorActions])
  | killRequested =>
    match i, h1 with
    | 1, _ =>
      match j, h2 with
      | 3, _ => decide
      | 0, h2 => exact absurd h2 (by simp [monitorActions])
      | 1, h2 => exact absurd h2 (by simp [monitorActions])
      | 2, h2 => exact absurd h2 (by simp [monitorActions])
      | n + 4, h2 => exact absurd h2 (by simp [monitorActions])
    | 0, h1 => exact absurd h1 (by simp [monitorActions])
    | 2, h1 => exact absurd h1 (by simp [monitorActions])
    | 3, h1 => exact absurd h1 (by simp [monitorActions])
    | n + 4, h1 => exact absurd h1 (by simp [monitorActions])

theorem C6_witness :
    (∃ i j, i < j ∧
      (monitorActions (ChildEvent.childExited 0)).get? i =
        some SupervisorAction.removeRegistryEntry ∧
      (monitorActions (ChildEvent.childExited 0)).get? j =
        some (SupervisorAction.notifyDeath (some 0))) ∧
    (1 : Nat) < 3 :=
  ⟨C6_remove_before_notify.1 0,
   C6_remove_before_notify.2.2 ChildEvent.killRequested 1 3 none (by decide) (by decide)⟩

/-!
Tunnel registry: `State.children : HashMap<String, Tunnel>` in
src/src/daemon.rs, updated at three places only:
  * `handle_client_open_inner` spawns a `ChildMonitor` for the host and
    then does `children.insert(host, Tunnel { .. })` — with no prior lookup,
    so an insert for a host that already has an entry silently replaces it
    while the old supervisor keeps running;
  * both `poll_awaiting_child_event` branches do
    `children.remove(&state.key)` — removal by host key.
The world tracks the registry's key set (`children`, kept duplicate-free,
matching map semantics) and the multiset of hosts owned by live supervisor
tasks (`live`); `childDies h`/`killTunnel h` is one live supervisor for `h`
observing its child exit / honoring a kill.
-/

structure DaemonWorld where
  children : List String
  live : List String
deriving DecidableEq

inductive DEvent
  | openSuccess (host : String)
  | childDies (host : String)
  | killTunnel (host : String)
deriving DecidableEq

/-- `children.insert(host, ..)` on the key set: a fresh key is added, an
existing key is replaced (key set unchanged). -/
def insertHost (h : String) (reg : List String) : List String :=
  if h ∈ reg then reg else h :: reg

/-- One live supervisor for `h` fires (child exit or honored kill): it
removes the registry entry under its key and terminates. -/
def supervisorFires (h : String) (w : DaemonWorld) : DaemonWorld :=
  if h ∈ w.live then
    { children := w.children.erase h, live := w.live.erase h }
  else
    w

def dstep (w : DaemonWorld) : DEvent → DaemonWorld
  | .openSuccess h => { children := insertHost h w.children, live := h :: w.live }
  | .childDies h => supervisorFires h w
  | .killTunnel h => supervisorFires h w

def dRun (w : DaemonWorld) : List DEvent → DaemonWorld
  | [] => w
  | e :: es => dRun (dstep w e) es

def w0 : DaemonWorld := { children := [], live := [] }

/-- The guard the spec's open-question section notes is absent from the
code: an open for `h` only happens while no entry for `h` is present. -/
def guardOk (w : DaemonWorld) : DEvent → Bool
  | .openSuccess h => !(decide (h ∈ w.children))
  | .childDies _ => true
  | .killTunnel _ => true

def guardedRun (w : DaemonWorld) : List DEvent → Bool
  | [] => true
  | e :: es => guardOk w e && guardedRun (dstep w e) es

/-- Registry invariant: at most one entry per host (no duplicate keys), and
an entry for `h` exists iff exactly one live supervisor holds an SSH child
for `h`; hosts never have two live supervisors. -/
def RegistryInv (w : DaemonWorld) : Prop :=
  w.children.Nodup ∧
    ∀ h : String, (h ∈ w.children ↔ w.live.count h = 1) ∧ w.live.count h ≤ 1

theorem registryInv_step (w : DaemonWorld) (e : DEvent) (hw : RegistryInv w)
    (hg : guardOk w e = true) : RegistryInv (dstep w e) := by
  obtain ⟨hnd, hiff⟩ := hw
  cases e with
  | openSuccess h =>
    have hnot : h ∉ w.children := by
      simp [guardOk] at hg
      exact hg
    have hcount : w.live.count h = 0 := by
      have h1 := (hiff h).1
      have h2 := (hiff h).2
      rcases Nat.lt_or_ge (w.live.count h) 1 with hlt | hge
      · omega
      · exact absurd (h1.mpr (by omega)) hnot
    constructor
    · simp only [dstep, insertHost, if_neg hnot]
      exact List.nodup_cons.mpr ⟨hnot, hnd⟩
    · intro h2
      simp only [dstep, insertHost, if_neg hnot]
      by_cases heq : h2 = h
      · subst heq
        constructor
        · constructor
          · intro _
            rw [List.count_cons_self, hcount]
          · intro _
            exact List.mem_cons_self h2 w.children
        · rw [List.count_cons_self, hcount]
      · have hc : (h :: w.live).count h2 = w.live.count h2 :=
          List.count_cons_of_ne heq w.live
        constructor
        · rw [hc]
          constructor
          · intro hm
            rcases List.mem_cons.mp hm with h3 | h3
            · exact absurd h3 heq
            · exact ((hiff h2).1).mp h3
          · intro hcnt
            exact List.mem_cons_of_mem h (((hiff h2).1).mpr hcnt)
        · rw [hc]
          exact (hiff h2).2
  | childDies h =>
    by_cases hl : h ∈ w.live
    · have hcount : w.live.count h = 1 := by
        have h1 := (hiff h).2
        have h2 : 0 < w.live.count h := List.count_pos_iff.mpr hl
        omega
      constructor
      · simp only [dstep, supervisorFires, if_pos hl]
        exact hnd.erase h
      · intro h2
        simp only [dstep, supervisorFires, if_pos hl]
        by_cases heq : h2 = h
        · subst heq
          have hmem : h2 ∉ w.children.erase h2 := fun hm =>
            absurd rfl ((hnd.mem_erase_iff.mp hm).1)
          have hce : (w.live.erase h2).count h2 = 0 := by
            rw [List.count_erase_self, hcount]
          constructor
          · rw [hce]
            exact ⟨fun hm => absurd hm hmem, fun h01 => absurd h01 (by omega)⟩
          · rw [hce]
            omega
        · have hce : (w.live.erase h).count h2 = w.live.count h2 :=
            List.count_erase_of_ne heq w.live
          constructor
          · rw [hce]
            rw [hnd.mem_erase_iff]
            exact ⟨fun hm => ((hiff h2).1).mp hm.2,
              fun hcnt => ⟨heq, ((hiff h2).1).mpr hcnt⟩⟩
          · rw [hce]
            exact (hiff h2).2
    · simp only [dstep, supervisorFires, if_neg hl]
      exact ⟨hnd, hiff⟩
  | killTunnel h =>
    by_cases hl : h ∈ w.live
    · have hcount : w.live.count h = 1 := by
        have h1 := (hiff h).2
        have h2 : 0 < w.live.count h := List.count_pos_iff.mpr hl
        omega
      constructor
      · simp only [dstep, supervisorFires, if_pos hl]
        exact hnd.erase h
      · intro h2
        simp only [dstep, supervisorFires, if_pos hl]
        by_cases heq : h2 = h
        · subst heq
          have hmem : h2 ∉ w.children.erase h2 := fun hm =>
            absurd rfl ((hnd.mem_erase_iff.mp hm).1)
          have hce : (w.live.erase h2).count h2 = 0 := by
            rw [List.count_erase_self, hcount]
          constructor
          · rw [hce]
            exact ⟨fun hm => absurd hm hmem, fun h01 => absurd h01 (by omega)⟩
          · rw [hce]
            omega
        · have hce : (w.live.erase h).count h2 = w.live.count h2 :=
            List.count_erase_of_ne heq w.live
          constructor
          · rw [hce]
            rw [hnd.mem_erase_iff]
            exact ⟨fun hm => ((hiff h2).1).mp hm.2,
              fun hcnt => ⟨heq, ((hiff h2).1).mpr hcnt⟩⟩
          · rw [hce]
            exact (hiff h2).2
    · simp only [dstep, supervisorFires, if_neg hl]
      exact ⟨hnd, hiff⟩

theorem registryInv_run (es : List DEvent) : ∀ w : DaemonWorld, RegistryInv w →
    guardedRun w es = true → RegistryInv (dRun w es) := by
  induction es with
  | nil => intro w hw _; exact hw
  | cons e es2 ih =>
    intro w hw hg
    simp only [guardedRun, Bool.and_eq_true] at hg
    exact ih (dstep w e) (registryInv_step w e hw hg.1) hg.2

/-- Claim C5 (corrected): provided no open for a host succeeds while an
entry for that host is already present (the registry lookup the spec's open
questions note is missing from the code), every reachable world satisfies
the registry invariant — duplicate-free keys, and an entry for `h` exists
iff exactly one live supervisor holds `h`'s child; moreover, in any world
an entry disappears only when a live supervisor for that host observes
child exit or honors a kill, and an entry appears only through a successful
open for that host.  Without the guard the invariant fails
(`C5_counterexample`). -/
theorem C5_registry_invariant :
    (∀ es : List DEvent, guardedRun w0 es = true → RegistryInv (dRun w0 es)) ∧
    (∀ (w : DaemonWorld) (e : DEvent) (h : String),
      h ∈ w.children → h ∉ (dstep w e).children →
      (e = DEvent.childDies h ∨ e = DEvent.killTunnel h) ∧ h ∈ w.live) ∧
    (∀ (w : DaemonWorld) (e : DEvent) (h : String),
      h ∉ w.children → h ∈ (dstep w e).children → e = DEvent.openSuccess h) := by
  refine ⟨?_, ?_, ?_⟩
  · intro es hg
    refine registryInv_run es w0 ⟨List.nodup_nil, ?_⟩ hg
    intro h
    simp [w0]
  · intro w e h hin hout
    cases e with
    | openSuccess h2 =>
      simp only [dstep, insertHost] at hout
      by_cases hm : h2 ∈ w.children
      · rw [if_pos hm] at hout
        exact absurd hin hout
      · rw [if_neg hm] at hout
        exact absurd (List.mem_cons_of_mem h2 hin) hout
    | childDies h2 =>
      simp only [dstep, supervisorFires] at hout
      by_cases hl : h2 ∈ w.live
      · rw [if_pos hl] at hout
        by_cases heq : h = h2
        · subst heq
          exact ⟨Or.inl rfl, hl⟩
        · exact absurd ((List.mem_erase_of_ne heq).mpr hin) hout
      · rw [if_neg hl] at hout
        exact absurd hin hout
    | killTunnel h2 =>
      simp only [dstep, supervisorFires] at hout
      by_cases hl : h2 ∈ w.live
      · rw [if_pos hl] at hout
        by_cases heq : h = h2
        · subst heq
          exact ⟨Or.inr rfl, hl⟩
        · exact absurd ((List.mem_erase_of_ne heq).mpr hin) hout
      · rw [if_neg hl] at hout
        exact absurd hin hout
  · intro w e h hout hin
    cases e with
    | openSuccess h2 =>
      simp only [dstep, insertHost] at hin
      by_cases hm : h2 ∈ w.children
      · rw [if_pos hm] at hin
        exact absurd hin hout
      · rw [if_neg hm] at hin
        rcases List.mem_cons.mp hin with heq | hmem
        · rw [heq]
        · exact absurd hmem hout
    | childDies h2 =>
      simp only [dstep, supervisorFires] at hin
      by_cases hl : h2 ∈ w.live
      · rw [if_pos hl] at hin
        exact absurd (List.mem_of_mem_erase hin) hout
      · rw [if_neg hl] at hin
        exact absurd hin hout
    | killTunnel h2 =>
      simp only [dstep, supervisorFires] at hin
      by_cases hl : h2 ∈ w.live
      · rw [if_pos hl] at hin
        exact absurd (List.mem_of_mem_erase hin) hout
      · rw [if_neg hl] at hin
        exact absurd hin hout

theorem C5_witness :
    RegistryInv (dRun w0 [DEvent.openSuccess "h1"]) ∧
    ((DEvent.childDies "h1" = DEvent.childDies "h1" ∨
        DEvent.childDies "h1" = DEvent.killTunnel "h1") ∧
      "h1" ∈ (⟨["h1"], ["h1"]⟩ : DaemonWorld).live) ∧
    DEvent.openSuccess "h1" = DEvent.openSuccess "h1" :=
  ⟨C5_registry_invariant.1 [DEvent.openSuccess "h1"] (by decide),
   C5_registry_invariant.2.1 ⟨["h1"], ["h1"]⟩ (DEvent.childDies "h1") "h1"
     (by decide) (by decide),
   C5_registry_invariant.2.2 w0 (DEvent.openSuccess "h1") "h1" (by decide) (by decide)⟩

/-- Claim C5, counterexample to the claim as stated: `handle_client_open`
performs no registry lookup before spawning, so a second successful open
for the same host is possible while the first tunnel lives.  After
`open "h1"; open "h1"; first child exits`, the registry holds no entry for
`"h1"` although a live supervisor still holds the second `ssh` child — the
first supervisor's `children.remove("h1")` removed the entry out from under
the second tunnel, before that child exited and with no kill sent. -/
theorem C5_counterexample :
    dRun w0 [DEvent.openSuccess "h1", DEvent.openSuccess "h1", DEvent.childDies "h1"] =
      { children := [], live := ["h1"] } ∧
    "h1" ∉ (dRun w0 [DEvent.openSuccess "h1", DEvent.openSuccess "h1",
      DEvent.childDies "h1"]).children ∧
    "h1" ∈ (dRun w0 [DEvent.openSuccess "h1", DEvent.openSuccess "h1",
      DEvent.childDies "h1"]).live := by
  decide

/-!
Client open workflow: `poll_first_ack`, `poll_communicating` and
`poll_cleaning_up_io` from src/protocol/src/client.rs.  (The older vendored
copy src/stund/src/protocol/client.rs reads a single frame per `FirstAck`
poll and treats `TunnelAlreadyOpen` as an unexpected, fatal variant; the
protocol crate version modelled here is the one the spec describes.)
A poll's stream reads are modelled by the list of items that are ready on
this wake: `some msg` for a frame, `none` for the stream reporting
end-of-stream.
-/

inductive OpenResult
  | success
  | alreadyOpen
deriving DecidableEq

/-- What `poll_first_ack` resolves to on one wake, given the list of ready
read results.  `communicating` carries the initial `Communicating` record:
both buffers fresh and the terminator acceptor seeded in `SawFirstEnter`. -/
inductive FirstAckOutcome
  | fatal
  | finishedResult (r : OpenResult)
  | communicating (userBuf sshBuf : List Nat) (finished : FinishCommunicationState)
  | notReady (sawOk : Bool)
deriving DecidableEq

/-- `poll_first_ack`: loop over ready frames; `Ok` sets `saw_ok` and keeps
reading; `Error(text)` is fatal; `TunnelAlreadyOpen` finishes with
`AlreadyOpen`; any other variant is fatal; end-of-stream (`None`) is fatal;
when no more frames are ready, transition to `Communicating` iff `saw_ok`. -/
def pollFirstAck (sawOk : Bool) : List (Option ServerMessage) → FirstAckOutcome
  | [] =>
      if sawOk then .communicating [] [] .sawFirstEnter
      else .notReady sawOk
  | some ServerMessage.ok :: rest => pollFirstAck true rest
  | some (ServerMessage.error _) :: _ => .fatal
  | some ServerMessage.tunnelAlreadyOpen :: _ => .finishedResult .alreadyOpen
  | some (ServerMessage.sshData _) :: _ => .fatal
  | none :: _ => .fatal

/-- Claim C8 (confirmed): in `FirstAck`, an `Ok` frame (with nothing else
ready) leads to `Communicating` with the acceptor seeded in
`SawFirstEnter`; `TunnelAlreadyOpen` terminates the workflow with result
`AlreadyOpen`; `Error(text)` is fatal; any other variant (`SshData`) is
fatal; and end-of-stream is fatal. -/
theorem C8_first_ack_dispatch :
    pollFirstAck false [some ServerMessage.ok] =
      FirstAckOutcome.communicating [] [] .sawFirstEnter ∧
    (∀ rest, pollFirstAck false (some ServerMessage.tunnelAlreadyOpen :: rest) =
      FirstAckOutcome.finishedResult .alreadyOpen) ∧
    (∀ (t : String) (rest : List (Option ServerMessage)),
      pollFirstAck false (some (ServerMessage.error t) :: rest) = FirstAckOutcome.fatal) ∧
    (∀ (d : List Nat) (rest : List (Option ServerMessage)),
      pollFirstAck false (some (ServerMessage.sshData d) :: rest) = FirstAckOutcome.fatal) ∧
    (∀ rest, pollFirstAck false (none :: rest) = FirstAckOutcome.fatal) :=
  ⟨rfl, fun _ => rfl, fun _ _ => rfl, fun _ _ => rfl, fun _ => rfl⟩

/-!
Daemon session `AwaitingCommand` (`poll_awaiting_command` in
src/src/daemon.rs): the state owns no counter of any kind; on end-of-stream
(`None`) it re-arms the receive future on the same stream and transitions
back to `AwaitingCommand` unchanged.
-/

inductive ACInput
  | eofStream
  | msg (m : ClientMessage)
deriving DecidableEq

inductive ACOutcome
  | reArmed
  | openStarted (host : String)
  | finishedSession
  | fatal
deriving DecidableEq

/-- One resolved read of `poll_awaiting_command`: `None` re-arms; `Open`
enters `handle_client_open`; `Exit`/`Goodbye` finish the session; any
other variant is a fatal session error. -/
def pollAwaitingCommand : ACInput → ACOutcome
  | .eofStream => .reArmed
  | .msg (.openCmd host) => .openStarted host
  | .msg .exitCmd => .finishedSession
  | .msg .goodbye => .finishedSession
  | .msg (.userData _) => .fatal
  | .msg .endOfUserData => .fatal

/-- The session's behavior on `n` consecutive end-of-stream reads: keep
re-arming while the outcome is `reArmed`. -/
def runEofs : Nat → ACOutcome
  | 0 => .reArmed
  | n + 1 =>
      match pollAwaitingCommand .eofStream with
      | .reArmed => runEofs n
      | o => o

/-- Claim C9 (corrected): an end-of-stream read leaves the session in
`AwaitingCommand` re-armed on the same stream — but repeated end-of-stream
reads never collapse to a fatal error: the state carries no counter, each
end-of-stream read produces the same re-arm, and after any number of
consecutive end-of-stream reads the session is still in `AwaitingCommand`
(`reArmed ≠ fatal`). -/
theorem C9_eof_rearms_forever :
    pollAwaitingCommand ACInput.eofStream = ACOutcome.reArmed ∧
    (∀ n : Nat, runEofs n = ACOutcome.reArmed) ∧
    ACOutcome.reArmed ≠ ACOutcome.fatal := by
  refine ⟨rfl, ?_, by decide⟩
  intro n
  induction n with
  | zero => rfl
  | succ n ih => simpa [runEofs, pollAwaitingCommand] using ih

/-- Claim C9, counterexample to the claim as stated: after 100 consecutive
end-of-stream reads the session is still re-armed in `AwaitingCommand`,
not in a fatal error — and a single end-of-stream step maps the state to
itself, so no amount of repetition can produce the claimed collapse (the
source has no such logic). -/
theorem C9_counterexample :
    runEofs 100 = ACOutcome.reArmed ∧
    runEofs 100 ≠ ACOutcome.fatal ∧
    pollAwaitingCommand ACInput.eofStream = ACOutcome.reArmed := by
  decide

/-!
Client `Communicating` state (`poll_communicating`): owns the user-output
buffer `user_buf`, the SSH-outbound buffer `ssh_buf` and the terminator
acceptor.  One poll drains ready daemon frames, drains ready user chunks
(feeding the acceptor), offers each non-empty buffer to its sink (clearing
it only when the sink accepts), flushes both sinks (an incomplete flush
ends the poll early), and transitions to `CleaningUpIo` when the acceptor
has reached `SawSecondEnter`.  The `CleaningUpIo` record owns only
`tx_ssh`, `rx_ssh`, `sent_finished_message` and `saw_ok` — neither buffer
nor the user sink travels into it.
-/

structure ClientCommState where
  userBuf : List Nat
  sshBuf : List Nat
  finished : FinishCommunicationState
deriving DecidableEq

structure ClientPollInput where
  daemonFrames : List (Option ServerMessage)
  userChunks : List (Option (List Nat))
  txUserReady : Bool
  txSshReady : Bool
  userFlushOk : Bool
  sshFlushOk : Bool
deriving DecidableEq

/-- The `sent_finished_message`/`saw_ok` record that `Communicating` hands
to `CleaningUpIo` — it carries no byte buffers. -/
structure CleanupState where
  sentFinishedMessage : Bool
  sawOk : Bool
deriving DecidableEq

/-- First loop of `poll_communicating`: ready daemon frames.  `SshData`
bytes extend `user_buf`; `Error` is fatal; any other variant (`Ok`,
`TunnelAlreadyOpen`) is an unexpected fatal message; a `None` read is
ignored (`None => {}`). -/
def drainDaemonFrames (userBuf : List Nat) : List (Option ServerMessage) → Option (List Nat)
  | [] => some userBuf
  | some (ServerMessage.sshData d) :: rest => drainDaemonFrames (userBuf ++ d) rest
  | some (ServerMessage.error _) :: _ => none
  | some ServerMessage.ok :: _ => none
  | some ServerMessage.tunnelAlreadyOpen :: _ => none
  | none :: _ => none

/-- Second loop: ready user-input chunks.  A `None` read is fatal
("EOF on terminal"); bytes extend `ssh_buf` and are fed one by one through
the terminator acceptor. -/
def drainUserChunks (sshBuf : List Nat) (fin : FinishCommunicationState) :
    List (Option (List Nat)) → Option (List Nat × FinishCommunicationState)
  | [] => some (sshBuf, fin)
  | none :: _ => none
  | some b :: rest => drainUserChunks (sshBuf ++ b) (runAcceptor fin b) rest

inductive ClientCommOutcome
  | fatal
  | continueComm (s : ClientCommState) (userOffers : List (List Nat))
      (daemonSends : List ClientMessage)
  | toCleaningUp (c : CleanupState) (userOffers : List (List Nat))
      (daemonSends : List ClientMessage)
deriving DecidableEq

/-- Offer/flush/transition phases of `poll_communicating`.  `userOffers`
are the chunks the user-output sink accepted; `daemonSends` the frames the
daemon sink accepted.  A sink that reports not-ready keeps the buffer; an
incomplete flush ends the poll without the transition check; otherwise
`SawSecondEnter` moves to `CleaningUpIo` with a fresh
`{sent_finished_message: false, saw_ok: false}` record, dropping whatever
is still in either buffer. -/
def commFlushAndNext (ubuf sbuf : List Nat) (fin : FinishCommunicationState)
    (i : ClientPollInput) : ClientCommOutcome :=
  let p1 : List Nat × List (List Nat) :=
    if ubuf ≠ [] ∧ i.txUserReady = true then ([], [ubuf]) else (ubuf, [])
  let p2 : List Nat × List ClientMessage :=
    if sbuf ≠ [] ∧ i.txSshReady = true then ([], [ClientMessage.userData sbuf])
    else (sbuf, [])
  if i.userFlushOk = false then .continueComm ⟨p1.1, p2.1, fin⟩ p1.2 p2.2
  else if i.sshFlushOk = false then .continueComm ⟨p1.1, p2.1, fin⟩ p1.2 p2.2
  else if fin = .sawSecondEnter then .toCleaningUp ⟨false, false⟩ p1.2 p2.2
  else .continueComm ⟨p1.1, p2.1, fin⟩ p1.2 p2.2

def pollCommunicating (s : ClientCommState) (i : ClientPollInput) : ClientCommOutcome :=
  match drainDaemonFrames s.userBuf i.daemonFrames with
  | none => .fatal
  | some ubuf =>
      match drainUserChunks s.sshBuf s.finished i.userChunks with
      | none => .fatal
      | some (sbuf, fin) => commFlushAndNext ubuf sbuf fin i

structure CleanupInput where
  txSshReady : Bool
  sshFlushOk : Bool
  daemonFrames : List (Option ServerMessage)
deriving DecidableEq

/-- `poll_cleaning_up_io` frame loop: trailing `SshData` is logged and
ignored — never delivered anywhere; `Error` is fatal; `Ok` sets `saw_ok`;
`TunnelAlreadyOpen` is an unexpected fatal variant; `None` reads are
ignored. -/
def drainCleanupFrames (sawOk : Bool) : List (Option ServerMessage) → Option Bool
  | [] => some sawOk
  | some (ServerMessage.sshData _) :: rest => drainCleanupFrames sawOk rest
  | some (ServerMessage.error _) :: _ => none
  | some ServerMessage.ok :: rest => drainCleanupFrames true rest
  | some ServerMessage.tunnelAlreadyOpen :: _ => none
  | none :: _ => none

inductive CleanupOutcome
  | fatalCleanup (daemonSends : List ClientMessage) (userOffers : List (List Nat))
  | continueCleanup (s : CleanupState) (daemonSends : List ClientMessage)
      (userOffers : List (List Nat))
  | finishedSuccess (daemonSends : List ClientMessage) (userOffers : List (List Nat))
deriving DecidableEq

/-- The one send `poll_cleaning_up_io` may start: `EndOfUserData`, once,
when the daemon sink accepts it. -/
def cleanupSendPhase (s : CleanupState) (i : CleanupInput) : Bool × List ClientMessage :=
  if s.sentFinishedMessage = false ∧ i.txSshReady = true then
    (true, [ClientMessage.endOfUserData])
  else
    (s.sentFinishedMessage, [])

/-- One call of `poll_cleaning_up_io`: send `EndOfUserData` if still
pending, flush (an incomplete flush ends the poll), drain ready daemon
frames, and finish with result `Success` once `saw_ok` holds.  The state
owns no user sink, so `userOffers` is `[]` in every branch. -/
def pollCleaningUpIo (s : CleanupState) (i : CleanupInput) : CleanupOutcome :=
  if i.sshFlushOk = false then
    .continueCleanup ⟨(cleanupSendPhase s i).1, s.sawOk⟩ (cleanupSendPhase s i).2 []
  else
    match drainCleanupFrames s.sawOk i.daemonFrames with
    | none => .fatalCleanup (cleanupSendPhase s i).2 []
    | some sawOk2 =>
        if sawOk2 = true then .finishedSuccess (cleanupSendPhase s i).2 []
        else .continueCleanup ⟨(cleanupSendPhase s i).1, sawOk2⟩ (cleanupSendPhase s i).2 []

def cleanupSends : CleanupOutcome → List ClientMessage
  | .fatalCleanup ds _ => ds
  | .continueCleanup _ ds _ => ds
  | .finishedSuccess ds _ => ds

def cleanupOffers : CleanupOutcome → List (List Nat)
  | .fatalCleanup _ uo => uo
  | .continueCleanup _ _ uo => uo
  | .finishedSuccess _ uo => uo

/-- Everything the client sends to the daemon over a whole `CleaningUpIo`
stay. -/
def cleanupRun (s : CleanupState) : List CleanupInput → List ClientMessage
  | [] => []
  | i :: rest =>
      match pollCleaningUpIo s i with
      | .continueCleanup s2 ds _ => ds ++ cleanupRun s2 rest
      | o => cleanupSends o

theorem cleanupRun_cons (s : CleanupState) (i : CleanupInput) (rest : List CleanupInput) :
    cleanupRun s (i :: rest) =
      match pollCleaningUpIo s i with
      | .continueCleanup s2 ds _ => ds ++ cleanupRun s2 rest
      | o => cleanupSends o := rfl

theorem cleanupSendPhase_snd (s : CleanupState) (i : CleanupInput) :
    (cleanupSendPhase s i).2 = [] ∨
    (cleanupSendPhase s i).2 = [ClientMessage.endOfUserData] := by
  unfold cleanupSendPhase
  split
  · exact Or.inr rfl
  · exact Or.inl rfl

theorem pollCleaningUpIo_sends (s : CleanupState) (i : CleanupInput) :
    cleanupSends (pollCleaningUpIo s i) = (cleanupSendPhase s i).2 := by
  unfold pollCleaningUpIo
  split
  · rfl
  · split
    · rfl
    · split
      · rfl
      · rfl

theorem pollCleaningUpIo_offers (s : CleanupState) (i : CleanupInput) :
    cleanupOffers (pollCleaningUpIo s i) = [] := by
  unfold pollCleaningUpIo
  split
  · rfl
  · split
    · rfl
    · split
      · rfl
      · rfl

theorem cleanupRun_only_end (inputs : List CleanupInput) : ∀ (s : CleanupState)
    (m : ClientMessage), m ∈ cleanupRun s inputs → m = ClientMessage.endOfUserData := by
  induction inputs with
  | nil =>
    intro s m hm
    simp [cleanupRun] at hm
  | cons i rest ih =>
    intro s m hm
    rw [cleanupRun_cons] at hm
    have hsend := pollCleaningUpIo_sends s i
    cases ho : pollCleaningUpIo s i with
    | continueCleanup s2 ds uo =>
      rw [ho] at hm hsend
      have hds : ds = (cleanupSendPhase s i).2 := hsend
      have hm2 : m ∈ ds ++ cleanupRun s2 rest := hm
      rcases List.mem_append.mp hm2 with hl | hr
      · rw [hds] at hl
        rcases cleanupSendPhase_snd s i with he | he <;> rw [he] at hl
        · simp at hl
        · simpa using hl
      · exact ih s2 m hr
    | fatalCleanup ds uo =>
      rw [ho] at hm hsend
      have hds : ds = (cleanupSendPhase s i).2 := hsend
      have hm2 : m ∈ ds := hm
      rw [hds] at hm2
      rcases cleanupSendPhase_snd s i with he | he <;> rw [he] at hm2
      · simp at hm2
      · simpa using hm2
    | finishedSuccess ds uo =>
      rw [ho] at hm hsend
      have hds : ds = (cleanupSendPhase s i).2 := hsend
      have hm2 : m ∈ ds := hm
      rw [hds] at hm2
      rcases cleanupSendPhase_snd s i with he | he <;> rw [he] at hm2
      · simp at hm2
      · simpa using hm2

/-- Claim C10 (confirmed): the `CleaningUpIo` record created by the
`Communicating → CleaningUpIo` transition is always the constant
`{sent_finished_message := false, saw_ok := false}` — it carries neither
buffer, whatever bytes the buffers still hold; after the transition the
client never offers anything to the user-output sink and the only message
it ever sends to the daemon is `EndOfUserData` (never `UserData`), so bytes
still buffered at the transition are discarded.  The last conjunct
exhibits the transition with both buffers non-empty (`user_buf = [1]`,
`ssh_buf = [2, 0x0A]` after the final chunk, both sinks not ready): the
held bytes are neither offered nor sent. -/
theorem C10_cleanup_drops_buffers :
    (∀ (s : ClientCommState) (i : ClientPollInput) (c : CleanupState)
        (uo : List (List Nat)) (ds : List ClientMessage),
      pollCommunicating s i = ClientCommOutcome.toCleaningUp c uo ds →
      c = ⟨false, false⟩) ∧
    (∀ (s : CleanupState) (inputs : List CleanupInput) (m : ClientMessage),
      m ∈ cleanupRun s inputs → m = ClientMessage.endOfUserData) ∧
    (∀ (s : CleanupState) (i : CleanupInput), cleanupOffers (pollCleaningUpIo s i) = []) ∧
    pollCommunicating ⟨[1], [2], .sawPeriod⟩
        ⟨[], [some [0x0A]], false, false, true, true⟩ =
      ClientCommOutcome.toCleaningUp ⟨false, false⟩ [] [] := by
  refine ⟨?_, fun s inputs m hm => cleanupRun_only_end inputs s m hm,
    fun s i => pollCleaningUpIo_offers s i, by decide⟩
  intro s i c uo ds h
  unfold pollCommunicating at h
  cases hd : drainDaemonFrames s.userBuf i.daemonFrames with
  | none => rw [hd] at h; exact absurd h (by simp)
  | some ubuf =>
    rw [hd] at h
    cases hu : drainUserChunks s.sshBuf s.finished i.userChunks with
    | none => rw [hu] at h; exact absurd h (by simp)
    | some p =>
      rw [hu] at h
      obtain ⟨sbuf, fin⟩ := p
      have h2 : commFlushAndNext ubuf sbuf fin i = ClientCommOutcome.toCleaningUp c uo ds := h
      simp only [commFlushAndNext] at h2
      split at h2
      · exact absurd h2 (by simp)
      · split at h2
        · exact absurd h2 (by simp)
        · split at h2
          · injection h2 with hc _ _
            exact hc.symm
          · exact absurd h2 (by simp)

theorem C10_witness :
    ((⟨false, false⟩ : CleanupState) = ⟨false, false⟩) ∧
    ClientMessage.endOfUserData = ClientMessage.endOfUserData :=
  ⟨C10_cleanup_drops_buffers.1 ⟨[1], [2], .sawPeriod⟩
      ⟨[], [some [0x0A]], false, false, true, true⟩ ⟨false, false⟩ [] [] (by decide),
   C10_cleanup_drops_buffers.2.1 ⟨false, false⟩ [⟨true, true, []⟩]
      ClientMessage.endOfUserData (by decide)⟩

end Stund
